import Mathlib

/-!
Verification of the versioned-storage core of the `be` repository.

The development shallowly embeds the identifier/path cache
(`libbe/storage/vcs/base.py`, class `CachedPathID`), the generic
version-control contract (`libbe/storage/vcs/base.py`, class `VCS`),
the unified-diff parser (`libbe/unidiff.py`) and the commit/revision
logic of the darcs, hg and monotone adapters.

Filesystem paths and hierarchical identifiers are modelled as lists of
path segments: the Python code manipulates strings separated by
`os.path.sep` (taken to be the usual `/`, matching the identifier
separator), and a list of nonempty separator-free segments is the
exact data those strings carry.  String containment checks that the
source performs (`startswith(spacer + sep)`, `endswith(sep + spacer)`,
`split(sep, 1)`) are translated to their segment-list equivalents.
Exceptions are modelled with `Except`/`Option`.
-/

namespace BE

instance {ε α : Type} [DecidableEq ε] [DecidableEq α] : DecidableEq (Except ε α)
  | .ok a, .ok b =>
    if h : a = b then .isTrue (by rw [h]) else .isFalse (fun he => h (Except.ok.inj he))
  | .error a, .error b =>
    if h : a = b then .isTrue (by rw [h]) else .isFalse (fun he => h (Except.error.inj he))
  | .ok _, .error _ => .isFalse (fun he => Except.noConfusion he)
  | .error _, .ok _ => .isFalse (fun he => Except.noConfusion he)

/-! ## CachedPathID (libbe/storage/vcs/base.py lines 147-343)

`self._spacer_dirs = ['.be', 'bugs', 'comments']`.
The in-memory cache `self._cache` maps a top-level identifier (uuid)
to a path relative to the working-tree root; `self._changed` is the
dirty flag.  `id()` first joins its argument onto `self._root` and
strips the root again, so modulo the root it acts on relative paths;
we model it on the relative segment list directly.  The lazy
`init(cache=self._cache)` retry inside `path()` walks the filesystem;
with no filesystem present it leaves the cache unchanged, so a miss
after the retry is modelled as an immediate miss. -/

def spacerDirs : List String := [".be", "bugs", "comments"]

/-- A segment is a valid path/identifier component when it is nonempty
and contains no separator; this is the side condition under which the
segment-list embedding of the Python string code is exact. -/
def ValidSeg (s : String) : Prop := s ≠ "" ∧ '/' ∉ s.toList

instance : DecidablePred ValidSeg := fun s => by unfold ValidSeg; infer_instance

/-- `p` is a string prefix of `s` (character-level `startswith`). -/
def strPrefixOf (p s : String) : Bool := p.toList.isPrefixOf s.toList

/-- `s[n:]` on characters. -/
def strDrop (s : String) (n : Nat) : String := String.mk (s.toList.drop n)

/-- Cache state of `CachedPathID`: the uuid → relative-path map
(an association list, first binding wins like a Python dict lookup)
and the dirty flag. -/
structure CPState where
  cache : List (String × List String)
  changed : Bool
deriving Repr, DecidableEq

/-- Python dict lookup `self._cache[uuid]` / `uuid in self._cache`. -/
def cacheLookup (c : List (String × List String)) (u : String) : Option (List String) :=
  match c.find? (fun e => e.1 = u) with
  | none => none
  | some e => some e.2

/-- `path.startswith(spacer + os.path.sep)` on a segment list: the
first segment equals `spacer` and at least one further segment follows. -/
def startsWithSpacer (spacer : String) (path : List String) : Bool :=
  match path with
  | p0 :: _ :: _ => p0 = spacer
  | _ => false

/-- The spacer-stripping loop of `CachedPathID.id` (base.py lines 330-337).
`cur` is the value last assigned to `_id` (the loop body always assigns
before any `break` can leave `_id` unset, because the caller has already
checked that the path starts with the first spacer). -/
def idLoop : List String → List String → List String → List String
  | [], _, cur => cur
  | spacer :: rest, path, cur =>
    match path with
    | p0 :: p1 :: ps =>
      if p0 = spacer then
        match ps with
        | [] => [p1]
        | _ :: _ => idLoop rest ps (p1 :: ps)
      else cur
    | _ => cur

/-- Errors raised by `CachedPathID.id`. -/
inductive IdErr
  | invalidPath
  | spacerCollision (spacer : String)
deriving Repr, DecidableEq

/-- `_id.endswith(os.path.sep + spacer)` for the first offending spacer
(base.py lines 338-340): the identifier has at least two segments and its
last segment equals the spacer. -/
def collidingSpacer (i : List String) : Option String :=
  if 2 ≤ i.length then spacerDirs.find? (fun s => i.getLast? = some s) else none

/-- `CachedPathID.id` (base.py lines 322-343) on a path relative to the
root.  Raises `InvalidPath` unless the path starts inside the first
spacer directory, walks the fixed spacer sequence, and raises
`SpacerCollision` when the computed identifier ends in a spacer name. -/
def cpidId (path : List String) : Except IdErr (List String) :=
  if startsWithSpacer ".be" path then
    let i := idLoop spacerDirs path []
    match collidingSpacer i with
    | some s => .error (.spacerCollision s)
    | none => .ok i
  else .error .invalidPath

/-- `CachedPathID.path` (base.py lines 275-288), returning the relative
path (the absolute variant only prepends the root).  `_id.split('/', 1)`
splits the identifier into its top-level uuid and the verbatim remainder;
a cache miss is `InvalidID` (`none` here; see the module comment on the
filesystem-walking retry). -/
def cpidPath (st : CPState) (i : List String) : Option (List String) :=
  match i with
  | [] => none
  | uuid :: extra =>
    match cacheLookup st.cache uuid with
    | none => none
    | some p => some (p ++ extra)

/-- `CachedPathID.add_id` (base.py lines 290-314).  Returns the updated
state and the (relative) path recorded or derived; `none` models the
assertion failures and uncaught exceptions (missing parent, parent path
too short, parent spacer unknown or last). -/
def cpidAddId (st : CPState) (i : List String) (parent : Option String) :
    Option (CPState × List String) :=
  match i with
  | [] => none
  | uuid :: extra =>
    if extra ≠ [] then
      -- not a UUID-level path; `assert _id.startswith(parent)`
      match parent with
      | none => none
      | some p =>
        if strPrefixOf p (String.intercalate "/" (uuid :: extra)) then
          match cpidPath st (uuid :: extra) with
          | none => none
          | some path => some (st, path)
        else none
    else
      match cacheLookup st.cache uuid with
      | some p => some (st, p)  -- already added
      | none =>
        match parent with
        | none =>
          let path := [".be", uuid]
          some (⟨(uuid, path) :: st.cache, true⟩, path)
        | some p =>
          match cacheLookup st.cache p with
          | none => none  -- self.path(parent) raises InvalidID
          | some parentPath =>
            -- parent_spacer = parent_path.split(os.path.sep)[-2]
            match parentPath.reverse with
            | _ :: parentSpacer :: _ =>
              match spacerDirs.indexOf? parentSpacer with
              | none => none  -- ValueError from list.index
              | some j =>
                match spacerDirs.get? (j + 1) with
                | none => none  -- IndexError: parent was a comment
                | some spacer =>
                  let path := parentPath ++ [spacer, uuid]
                  some (⟨(uuid, path) :: st.cache, true⟩, path)
            | _ => none  -- parent path shorter than two segments

/-- `CachedPathID.remove_id` (base.py lines 316-320).  An identifier
with an embedded separator returns untouched; otherwise the unguarded
`self._cache.pop(_id)` raises `KeyError` (`none`) when the entry is
absent, and removes it marking the cache dirty when present. -/
def cpidRemoveId (st : CPState) (i : List String) : Option CPState :=
  match i with
  | [] => none
  | uuid :: extra =>
    if extra ≠ [] then some st
    else
      match cacheLookup st.cache uuid with
      | none => none
      | some _ => some ⟨st.cache.filter (fun e => ¬ e.1 = uuid), true⟩

/-- Shape invariant of the paths that `CachedPathID` records for
top-level identifiers: `.be/U`, `.be/U1/bugs/U`, or
`.be/U1/bugs/U2/comments/U` (a bugdir, bug, or comment container). -/
def WfEntry (u : String) (p : List String) : Prop :=
  p = [".be", u] ∨
  (∃ u1, p = [".be", u1, "bugs", u]) ∨
  (∃ u1 u2, p = [".be", u1, "bugs", u2, "comments", u])

/-- Every cached binding is well-formed. -/
def WfCache (st : CPState) : Prop :=
  ∀ u p, cacheLookup st.cache u = some p → WfEntry u p

/-! ## Unified-diff parser (libbe/unidiff.py)

The Python parser iterates over the lines of the diff text (each line
keeping its trailing newline, as iterating a file object does),
recognises `--- `/`+++ `/`rename from`/`rename to` file headers and
`@@ -s[,l] +s[,l] @@` hunk headers, and hands the shared iterator to
`PatchedFile.parse_hunk` to consume hunk body lines.  The regular
expressions involved are simple enough to translate exactly into
character-list scanners. -/

def tabChar : Char := Char.ofNat 9
def nlChar : Char := Char.ofNat 10
def backslashChar : Char := Char.ofNat 92
def quoteChar : Char := Char.ofNat 39

/-- Split a character list at every newline (the fragments, newlines
removed; one more fragment than there are newlines). -/
def splitNl : List Char → List (List Char)
  | [] => [[]]
  | c :: cs =>
    if c = nlChar then [] :: splitNl cs
    else
      match splitNl cs with
      | p :: rest => (c :: p) :: rest
      | [] => [[c]]

/-- Split a string into lines the way iterating a `StringIO` does:
every line keeps its trailing newline; a final fragment without a
newline is kept, an empty final fragment is not a line. -/
def toLinesAux : List String → List String
  | [] => []
  | [last] => if last = "" then [] else [last]
  | p :: rest => (p ++ "\n") :: toLinesAux rest

def toLines (s : String) : List String := toLinesAux ((splitNl s.toList).map String.mk)

/-- `enumerate(diff, 1)`. -/
def enum1 (l : List String) : List (Nat × String) :=
  l.enum.map (fun p => (p.1 + 1, p.2))

/-- Result of the `RE_SOURCE_FILENAME` / `RE_TARGET_FILENAME` match:
either the plain filename alternative (with optional timestamp after a
tab) or the rename alternative. -/
inductive FileHeaderMatch
  | plain (name : String) (timestamp : Option String)
  | rename (name : String)
deriving Repr, DecidableEq

/-- Match `^PRE(?P<filename>[^\t\n]+)(?:\t(?P<timestamp>[^\n]+))?`
(the first alternative of the filename regexes, `PRE` being
`--- ` or `+++ `). -/
def matchPlainHeader (pre : String) (line : String) : Option (String × Option String) :=
  if strPrefixOf pre line then
    let rest := line.toList.drop pre.length
    let name := rest.takeWhile (fun c => c ≠ tabChar ∧ c ≠ nlChar)
    if name.isEmpty then none
    else
      match rest.drop name.length with
      | c :: more =>
        if c = tabChar then
          let ts := more.takeWhile (fun c => c ≠ nlChar)
          if ts.isEmpty then some (String.mk name, none)
          else some (String.mk name, some (String.mk ts))
        else some (String.mk name, none)
      | [] => some (String.mk name, none)
  else none

/-- Match `^rename from (?P<renamefile>[^\t\n]+)$` (the `$` admits one
trailing newline). -/
def matchRenameFrom (line : String) : Option String :=
  if strPrefixOf "rename from " line then
    let rest := line.toList.drop "rename from ".length
    let core := if rest.getLast? = some nlChar then rest.dropLast else rest
    if ¬ core.isEmpty ∧ core.all (fun c => c ≠ tabChar ∧ c ≠ nlChar) then
      some (String.mk core)
    else none
  else none

/-- Match `^rename to (?P<renamefile>[^\t\n]+)` (no `$` anchor). -/
def matchRenameTo (line : String) : Option String :=
  if strPrefixOf "rename to " line then
    let core := (line.toList.drop "rename to ".length).takeWhile
      (fun c => c ≠ tabChar ∧ c ≠ nlChar)
    if core.isEmpty then none else some (String.mk core)
  else none

def matchSourceFilename (line : String) : Option FileHeaderMatch :=
  match matchPlainHeader "--- " line with
  | some (n, ts) => some (.plain n ts)
  | none => (matchRenameFrom line).map .rename

def matchTargetFilename (line : String) : Option FileHeaderMatch :=
  match matchPlainHeader "+++ " line with
  | some (n, ts) => some (.plain n ts)
  | none => (matchRenameTo line).map .rename

def digitsToNat (l : List Char) : Nat :=
  l.foldl (fun a c => a * 10 + (c.toNat - 48)) 0

/-- `(?:,(\d+))?` followed (in the regex) by a literal that is not a
comma: if a comma is present it must be followed by digits, otherwise
the whole match fails. -/
def optCommaNum (l : List Char) : Option (Option Nat × List Char) :=
  match l with
  | c :: rest =>
    if c = ',' then
      let d := rest.takeWhile Char.isDigit
      if d.isEmpty then none else some (some (digitsToNat d), rest.drop d.length)
    else some (none, l)
  | [] => some (none, [])

/-- Parsed `RE_HUNK_HEADER` groups, with `Hunk.__init__`s
`None`-length-defaults-to-1 already applied. -/
structure HunkHeader where
  sourceStart : Nat
  sourceLength : Nat
  targetStart : Nat
  targetLength : Nat
  sectionHeader : String
deriving Repr, DecidableEq

/-- Match `^@@ -(\d+)(?:,(\d+))? \+(\d+)(?:,(\d+))?\ @@[ ]?(.*)`. -/
def matchHunkHeader (line : String) : Option HunkHeader :=
  if strPrefixOf "@@ -" line then
    let rest := line.toList.drop 4
    let d1 := rest.takeWhile Char.isDigit
    if d1.isEmpty then none
    else
      match optCommaNum (rest.drop d1.length) with
      | none => none
      | some (len1, r1) =>
        match r1 with
        | ' ' :: '+' :: r2 =>
          let d2 := r2.takeWhile Char.isDigit
          if d2.isEmpty then none
          else
            match optCommaNum (r2.drop d2.length) with
            | none => none
            | some (len2, r3) =>
              match r3 with
              | ' ' :: '@' :: '@' :: r4 =>
                let r5 := if r4.head? = some ' ' then r4.tail else r4
                let sect := r5.takeWhile (fun c => c ≠ nlChar)
                some ⟨digitsToNat d1, len1.getD 1, digitsToNat d2, len2.getD 1,
                      String.mk sect⟩
              | _ => none
        | _ => none
  else none

/-- Line classification characters accepted by `RE_HUNK_BODY_LINE`
(`LINE_TYPE_EMPTY` can never be produced, since the regex requires one
of the four characters). -/
inductive BodyType
  | added
  | removed
  | context
  | noNewline
deriving Repr, DecidableEq

/-- Match `^(?P<line_type>[- \+\\])(?P<value>.*)` with `re.DOTALL`:
the value is the whole remainder of the line, newline included. -/
def classifyBody (line : String) : Option (BodyType × String) :=
  match line.toList with
  | c :: rest =>
    if c = '+' then some (.added, String.mk rest)
    else if c = '-' then some (.removed, String.mk rest)
    else if c = ' ' then some (.context, String.mk rest)
    else if c = backslashChar then some (.noNewline, String.mk rest)
    else none
  | [] => none

/-- A parsed diff line (class `Line`): classification (no-newline
markers are dropped before being stored), value, and the recorded
source/target/diff line numbers. -/
structure DLine where
  value : String
  lineType : BodyType
  sourceLineNo : Option Nat
  targetLineNo : Option Nat
  diffLineNo : Option Nat
deriving Repr, DecidableEq

def DLine.isAdded (l : DLine) : Bool := l.lineType = .added
def DLine.isRemoved (l : DLine) : Bool := l.lineType = .removed
def DLine.isContext (l : DLine) : Bool := l.lineType = .context

/-- A hunk (class `Hunk`): header data plus classified lines. -/
structure Hunk where
  sourceStart : Nat
  sourceLength : Nat
  targetStart : Nat
  targetLength : Nat
  sectionHeader : String
  lines : List DLine
deriving Repr, DecidableEq

/-- A per-file patch (class `PatchedFile`). -/
structure PatchedFile where
  sourceFile : String
  targetFile : String
  sourceTimestamp : Option String
  targetTimestamp : Option String
  isRenamedFile : Bool
  hunks : List Hunk
deriving Repr, DecidableEq

/-- The characters of `s` after its first `/`; `none` when `s` has no
slash (where the Python `split('/', 1)[1]` raises `IndexError`). -/
def afterFirstSlash (s : String) : Option String :=
  let rest := s.toList.dropWhile (fun c => c ≠ '/')
  match rest with
  | _ :: t => some (String.mk t)
  | [] => none

/-- `PatchedFile.__init__` (unidiff.py lines 193-207), including the
darcs-style `old-`/`new-` prefix stripping; `none` models the
`IndexError` when the stripped name contains no slash. -/
def mkPatchedFile (source target : String) (sts tts : Option String)
    (rename : Bool) : Option PatchedFile :=
  if strPrefixOf "old-" source ∧ strPrefixOf "new-" target ∧
      strDrop source 4 = strDrop target 4 then
    match afterFirstSlash (strDrop source 4), afterFirstSlash (strDrop target 4) with
    | some s, some t => some ⟨s, t, sts, tts, rename, []⟩
    | _, _ => none
  else some ⟨source, target, sts, tts, rename, []⟩

/-- `PatchedFile.path` (unidiff.py lines 266-280). -/
def PatchedFile.path (f : PatchedFile) : String :=
  if strPrefixOf "a/" f.sourceFile ∧ strPrefixOf "b/" f.targetFile then
    strDrop f.sourceFile 2
  else if strPrefixOf "a/" f.sourceFile ∧ f.targetFile = "/dev/null" then
    strDrop f.sourceFile 2
  else if strPrefixOf "b/" f.targetFile ∧ f.sourceFile = "/dev/null" then
    strDrop f.targetFile 2
  else f.sourceFile

/-- `PatchedFile.is_added_file` (unidiff.py lines 292-297). -/
def PatchedFile.isAddedFile (f : PatchedFile) : Bool :=
  f.isRenamedFile ||
    (match f.hunks with
     | [h] => h.sourceStart = 0 && h.sourceLength = 0
     | _ => false)

/-- `PatchedFile.is_removed_file` (unidiff.py lines 299-304). -/
def PatchedFile.isRemovedFile (f : PatchedFile) : Bool :=
  f.isRenamedFile ||
    (match f.hunks with
     | [h] => h.targetStart = 0 && h.targetLength = 0
     | _ => false)

/-- `PatchedFile.is_modified_file` (unidiff.py lines 306-309). -/
def PatchedFile.isModifiedFile (f : PatchedFile) : Bool :=
  ¬ (f.isAddedFile || f.isRemovedFile)

/-- `PatchSet.changed_files` (unidiff.py lines 396-414) accumulator;
the `added`/`modified`/`removed` lists are built in patch order and
returned as sets by the Python code. -/
def changedFilesAux : List PatchedFile → List String → List String → List String →
    List String × List String × List String
  | [], a, m, r => (a.reverse, m.reverse, r.reverse)
  | f :: rest, a, m, r =>
    if f.isRenamedFile then
      changedFilesAux rest (f.targetFile :: a) m (f.sourceFile :: r)
    else if f.isAddedFile then
      changedFilesAux rest (f.path :: a) m r
    else if f.isModifiedFile then
      changedFilesAux rest a (f.path :: m) r
    else
      changedFilesAux rest a m (f.path :: r)

def changedFiles (ps : List PatchedFile) : List String × List String × List String :=
  changedFilesAux ps [] [] []

/-- Parse errors (`UnidiffParseError` plus the two uncaught Python
crashes the parser can run into). -/
inductive PErr
  | hunkLineExpected (line : String)
  | targetWithoutSource (line : String)
  | unexpectedHunk (line : String)
  | sourceUnset
  | fileInitCrash
  | noFuel
deriving Repr, DecidableEq

/-- The hunk body loop of `PatchedFile.parse_hunk` (unidiff.py lines
229-262): consume numbered lines from the shared iterator, classify
each, thread the running source/target line counters, and stop once
both counters reach the expected ends. -/
def parseHunkBody (esE etE : Nat) (sNo tNo : Nat) (acc : List DLine) :
    List (Nat × String) → Except PErr (List DLine × List (Nat × String))
  | [] => .ok (acc.reverse, [])
  | (n, l) :: rest =>
    match classifyBody l with
    | none => .error (.hunkLineExpected l)
    | some (t, v) =>
      let step : List DLine × Nat × Nat :=
        match t with
        | .added => (⟨v, .added, none, some tNo, some n⟩ :: acc, sNo, tNo + 1)
        | .removed => (⟨v, .removed, some sNo, none, some n⟩ :: acc, sNo + 1, tNo)
        | .context => (⟨v, .context, some sNo, some tNo, some n⟩ :: acc, sNo + 1, tNo + 1)
        | .noNewline => (acc, sNo, tNo)
      if step.2.1 = esE ∧ step.2.2 = etE then .ok (step.1.reverse, rest)
      else parseHunkBody esE etE step.2.1 step.2.2 step.1 rest

theorem parseHunkBody_rest_le (esE etE : Nat) :
    ∀ (ls : List (Nat × String)) (sNo tNo : Nat) (acc out : List DLine)
      (rem : List (Nat × String)),
      parseHunkBody esE etE sNo tNo acc ls = .ok (out, rem) →
      rem.length ≤ ls.length := by
  intro ls
  induction ls with
  | nil =>
    intro sNo tNo acc out rem h
    simp only [parseHunkBody, Except.ok.injEq, Prod.mk.injEq] at h
    simp [← h.2]
  | cons hd tl ih =>
    intro sNo tNo acc out rem h
    simp only [parseHunkBody] at h
    rcases hd with ⟨n, l⟩
    cases hcl : classifyBody l with
    | none => simp [hcl] at h
    | some tv =>
      simp only [hcl] at h
      by_cases hc : ((match tv.1 with
        | .added => ((⟨tv.2, .added, none, some tNo, some n⟩ : DLine) :: acc, sNo, tNo + 1)
        | .removed => ((⟨tv.2, .removed, some sNo, none, some n⟩ : DLine) :: acc, sNo + 1, tNo)
        | .context => ((⟨tv.2, .context, some sNo, some tNo, some n⟩ : DLine) :: acc, sNo + 1, tNo + 1)
        | .noNewline => (acc, sNo, tNo) : List DLine × Nat × Nat).2.1 = esE ∧
          (match tv.1 with
        | .added => ((⟨tv.2, .added, none, some tNo, some n⟩ : DLine) :: acc, sNo, tNo + 1)
        | .removed => ((⟨tv.2, .removed, some sNo, none, some n⟩ : DLine) :: acc, sNo + 1, tNo)
        | .context => ((⟨tv.2, .context, some sNo, some tNo, some n⟩ : DLine) :: acc, sNo + 1, tNo + 1)
        | .noNewline => (acc, sNo, tNo) : List DLine × Nat × Nat).2.2 = etE) <;>
      rcases tv with ⟨t, v⟩
      · rw [if_pos hc] at h
        cases h
        simp
      · rw [if_neg hc] at h
        have := ih _ _ _ _ _ h
        simpa using Nat.le_succ_of_le this

/-- Mutable state of `PatchSet._parse` (unidiff.py lines 329-372):
the last seen source header (`none` while the Python locals
`source_file`/`source_timestamp` are still unbound), the persistent
`rename` flag, whether `current_file` is set, and the files appended so
far in reverse order (the most recent, which receives new hunks, at
the head). -/
structure ParseCtx where
  source : Option (String × Option String)
  rename : Bool
  haveCurrent : Bool
  filesRev : List PatchedFile
deriving Repr

/-- Append a freshly parsed hunk to `current_file`. -/
def pushHunk (h : Hunk) : List PatchedFile → List PatchedFile
  | [] => []
  | f :: fs => { f with hunks := f.hunks ++ [h] } :: fs

/-- The body of `PatchSet._parse` (unidiff.py lines 329-372), one
numbered line at a time.  The `fuel` argument only makes the recursion
structural (each step consumes at least one input line, so the
`noFuel` branch is unreachable when started with more fuel than there
are lines). -/
def parseLines : Nat → ParseCtx → List (Nat × String) →
    Except PErr (List PatchedFile)
  | 0, _, _ => .error .noFuel
  | _ + 1, ctx, [] => .ok ctx.filesRev.reverse
  | fuel + 1, ctx, (_, line) :: rest =>
    match matchSourceFilename line with
    | some m =>
      let srcInfo : String × Option String :=
        match m with
        | .plain n ts => (n, ts)
        | .rename n => (n, none)
      let ren : Bool := match m with | .plain _ _ => false | .rename _ => true
      parseLines fuel ⟨some srcInfo, ren, false, ctx.filesRev⟩ rest
    | none =>
      match matchTargetFilename line with
      | some m =>
        if ctx.haveCurrent then .error (.targetWithoutSource line)
        else
          match ctx.source with
          | none => .error .sourceUnset
          | some (sf, sts) =>
            let tgtInfo : String × Option String :=
              match m with
              | .plain n ts => (n, ts)
              | .rename n => (n, none)
            match mkPatchedFile sf tgtInfo.1 sts tgtInfo.2 ctx.rename with
            | none => .error .fileInitCrash
            | some f =>
              parseLines fuel ⟨ctx.source, ctx.rename, true, f :: ctx.filesRev⟩ rest
      | none =>
        match matchHunkHeader line with
        | some hh =>
          if ctx.haveCurrent then
            match parseHunkBody (hh.sourceStart + hh.sourceLength)
                (hh.targetStart + hh.targetLength) hh.sourceStart hh.targetStart
                [] rest with
            | .error e => .error e
            | .ok (body, rem) =>
              let hk : Hunk := ⟨hh.sourceStart, hh.sourceLength, hh.targetStart,
                                hh.targetLength, hh.sectionHeader, body⟩
              parseLines fuel ⟨ctx.source, ctx.rename, ctx.haveCurrent,
                pushHunk hk ctx.filesRev⟩ rem
          else .error (.unexpectedHunk line)
        | none => parseLines fuel ctx rest

/-- `PatchSet.from_string` / `PatchSet.__init__` with no encoding. -/
def patchSetFromString (s : String) : Except PErr (List PatchedFile) :=
  parseLines ((toLines s).length + 1) ⟨none, false, false, []⟩ (enum1 (toLines s))

/-! ### Rendering (`__str__`, unidiff.py lines 109-110, 154-160,
212-216, 326-327) -/

/-- `Line.__str__`: classification character followed by the stored
value (which still carries its newline). -/
def renderDLine (l : DLine) : String :=
  (match l.lineType with
   | .added => "+"
   | .removed => "-"
   | .context => " "
   | .noNewline => String.mk [backslashChar]) ++ l.value

/-- `Hunk.__str__`: header line, then the body lines joined with a
newline — although each stored value already ends in one. -/
def renderHunk (h : Hunk) : String :=
  "@@ -" ++ toString h.sourceStart ++ "," ++ toString h.sourceLength ++
    " +" ++ toString h.targetStart ++ "," ++ toString h.targetLength ++
    " @@ " ++ h.sectionHeader ++ "\n" ++
    String.intercalate "\n" (h.lines.map renderDLine)

/-- `PatchedFile.__str__`. -/
def renderPatchedFile (f : PatchedFile) : String :=
  "--- " ++ f.sourceFile ++ "\n" ++ "+++ " ++ f.targetFile ++ "\n" ++
    String.intercalate "\n" (f.hunks.map renderHunk)

/-- `PatchSet.__str__`. -/
def renderPatchSet (ps : List PatchedFile) : String :=
  String.intercalate "\n" (ps.map renderPatchedFile)

/-! ## VCS.version_cmp (libbe/storage/vcs/base.py lines 526-613)

The installed version string is parsed into a mixed sequence of
integers and pre-release tag strings; `version_cmp` compares that
sequence element-wise against the argument sequence and settles length
mismatches by looking at the first extra element of the longer
sequence. -/

/-- One element of a parsed version sequence: an integer component or
an alphabetic pre-release tag. -/
inductive VComp
  | num (n : Int)
  | tag (s : String)
deriving Repr, DecidableEq

/-- Python 2 `cmp` on two integers. -/
def cmpInt (x y : Int) : Int :=
  if x < y then -1 else if x = y then 0 else 1

/-- Python 2 `cmp` on two strings: lexicographic comparison of the
code-point sequences. -/
def cmpChars : List Char → List Char → Int
  | [], [] => 0
  | [], _ :: _ => -1
  | _ :: _, [] => 1
  | a :: as, b :: bs =>
    if a.toNat < b.toNat then -1
    else if b.toNat < a.toNat then 1
    else cmpChars as bs

def cmpStr (x y : String) : Int := cmpChars x.toList y.toList

/-- The element comparison of `version_cmp` (base.py lines 590-598):
mismatched classes order every integer above every tag string. -/
def cmpVComp : VComp → VComp → Int
  | .num a, .num b => cmpInt a b
  | .tag a, .tag b => cmpStr a b
  | .num _, .tag _ => 1
  | .tag _, .num _ => -1

/-- `VCS.version_cmp` on parsed sequences: element-wise comparison,
then the length tie-break of base.py lines 599-613 — the first extra
element of the longer sequence decides, a pre-release tag making the
longer sequence the smaller one. -/
def versionCmp : List VComp → List VComp → Int
  | [], [] => 0
  | [], b :: _ => (match b with | .tag _ => 1 | .num _ => -1)
  | a :: _, [] => (match a with | .tag _ => -1 | .num _ => 1)
  | a :: as, b :: bs => if cmpVComp a b = 0 then versionCmp as bs else cmpVComp a b

/-! ## Adapter commit and revision logic

The adapters shell out to the external tool; the captured output of
the relevant invocation is a parameter of the model, and the
repository history (the list the adapter would recover, oldest first)
is another. -/

/-- `VCS._u_any_in_string` (base.py lines 922-929): Python `txt in string`
substring membership over a list of needles. -/
def anyInString (needles : List String) (s : String) : Bool :=
  needles.any (fun t => decide (t.toList <:+: s.toList))

/-- Python list indexing `l[i]` with sign handling, `None` on
`IndexError`. -/
def pyIndex (l : List String) (i : Int) : Option String :=
  if 0 ≤ i then l.get? i.toNat
  else
    let j : Int := (l.length : Int) + i
    if 0 ≤ j then l.get? j.toNat else none

/-- `Darcs._vcs_revision_id` (darcs.py lines 245-255) over the
oldest-first revision list produced by `Darcs._revisions`;
`Monotone._vcs_revision_id` (monotone.py lines 258-272) has the same
index logic over its toposorted list. -/
def darcsRevisionId (index : Int) (revisions : List String) : Option String :=
  if 0 < index then pyIndex revisions (index - 1)
  else if index < 0 then pyIndex revisions index
  else none

/-- `Hg._vcs_revision_id` (hg.py lines 179-187): indices above zero are
shifted down by one and handed to `hg identify --rev`; mercurial
numbers revisions from 0 in commit order and resolves negative numbers
from the tip. -/
def hgRevisionId (index : Int) (revisions : List String) : Option String :=
  pyIndex revisions (if 0 < index then index - 1 else index)

/-- Errors surfaced by the commit/revision entry points. -/
inductive VcsErr
  | emptyCommit
  | invalidRevision
  | commandFailure
  | assertionFailure
deriving Repr, DecidableEq

/-- The group of the first `Finished recording patch '(.*)'` match in
the darcs record output: the text between the first occurrence of the
opening marker and the last quote on that line. -/
def charsAfterInfix (marker : List Char) : List Char → Option (List Char)
  | [] => if marker.isEmpty then some [] else none
  | c :: cs =>
    if marker.isPrefixOf (c :: cs) then some ((c :: cs).drop marker.length)
    else charsAfterInfix marker cs

def finishedPatchName (output : String) : Option String :=
  match charsAfterInfix ("Finished recording patch ".toList ++ [quoteChar])
      output.toList with
  | none => none
  | some rest =>
    let line := rest.takeWhile (fun c => c ≠ nlChar)
    match line.reverse.dropWhile (fun c => c ≠ quoteChar) with
    | [] => none
    | _ :: t => some (String.mk t.reverse)

/-- `Darcs._vcs_commit` (darcs.py lines 196-225) as a function of the
final `darcs record` output and the repository history.  When darcs
reports `No changes!` the empty-commit gate fires unless
`allow_empty`, in which case the id of the last already-existing
revision is returned; otherwise the recorded patch name is extracted
(the `assert match != None`). -/
def darcsCommit (output : String) (allowEmpty : Bool) (revisions : List String) :
    Except VcsErr (Option String) :=
  if anyInString ["No changes!"] output then
    if allowEmpty = false then .error .emptyCommit
    else .ok (darcsRevisionId (-1) revisions)
  else
    match finishedPatchName output with
    | none => .error .assertionFailure
    | some name => .ok (some name)

/-- `Hg._vcs_commit` (hg.py lines 160-177): raise on `nothing changed`
unless `allow_empty`, then return `_vcs_revision_id(-1)` — the tip,
which after an allowed empty commit is still the most recent
pre-existing revision. -/
def hgCommit (output : String) (allowEmpty : Bool) (revisions : List String) :
    Except VcsErr (Option String) :=
  if allowEmpty = false ∧ anyInString ["nothing changed"] output then .error .emptyCommit
  else .ok (hgRevisionId (-1) revisions)

/-- `Monotone._vcs_commit` (monotone.py lines 233-251) as a function of
the `mtn commit` exit status and stderr, and of the base revision
`_current_revision` reports (monotone makes no revision for an empty
commit, so this is the most recent existing one). -/
def monotoneCommit (status : Int) (error : String) (allowEmpty : Bool)
    (currentRev : String) : Except VcsErr String :=
  if status = 1 then
    if anyInString ["no changes to commit"] error then
      if ¬ allowEmpty then .error .emptyCommit else .ok currentRev
    else .error .commandFailure
  else
    if currentRev.toList <:+: error.toList then .ok currentRev
    else .error .assertionFailure

/-- The index argument of `VCS.revision_id`: `int(index) != index`
distinguishes genuine integers from everything else. -/
inductive RIdx
  | int (i : Int)
  | nonInt
deriving Repr, DecidableEq

/-- `VCS.revision_id` (base.py lines 891-904) over an adapter's
`_vcs_revision_id`: `None` passes through, a non-integer index raises
`InvalidRevision`, and an adapter miss raises `InvalidRevision`. -/
def revisionId (adapter : Int → Option String) : Option RIdx →
    Except VcsErr (Option String)
  | none => .ok none
  | some .nonInt => .error .invalidRevision
  | some (.int i) =>
    match adapter i with
    | none => .error .invalidRevision
    | some r => .ok (some r)

/-! ## VCS._get (base.py lines 843-857) and
`VCS._vcs_get_file_contents` (base.py lines 436-455) -/

/-- What the filesystem holds at a path: nothing, a directory, or a
file with byte contents. -/
inductive FSNode
  | dir
  | file (contents : List Nat)
deriving Repr, DecidableEq

/-- A filesystem fragment: relative path → node. -/
def FS := List (List String × FSNode)

def fsLookup (fs : FS) (p : List String) : Option FSNode :=
  match fs.find? (fun e => e.1 = p) with
  | none => none
  | some e => some e.2

/-- The sentinel results of `_vcs_get_file_contents` at the current
revision: `libbe.util.InvalidObject` for a missing path,
`libbe.storage.base.InvalidDirectory` for a directory, else the bytes. -/
inductive GetResult
  | invalidObject
  | invalidDirectory
  | contents (b : List Nat)
deriving Repr, DecidableEq

def vcsGetFileContents (fs : FS) (path : List String) : GetResult :=
  match fsLookup fs path with
  | none => .invalidObject
  | some .dir => .invalidDirectory
  | some (.file b) => .contents b

/-- `VCS._get` with `revision=None`: resolve the path through the
cache (`InvalidID` on a miss), read the contents, and treat the two
sentinels *and empty contents* (`or not contents`) alike — raise
`InvalidID` without a default argument, return the default with one. -/
def vcsGet (st : CPState) (fs : FS) (i : List String)
    (dflt : Option (List Nat)) : Except Unit (List Nat) :=
  match cpidPath st i with
  | none =>
    match dflt with
    | none => .error ()
    | some d => .ok d
  | some relpath =>
    match vcsGetFileContents fs relpath with
    | .contents (b :: bs) => .ok (b :: bs)
    | _ =>
      match dflt with
      | none => .error ()
      | some d => .ok d

/-! ## Theorems -/

/-- C9: `CachedPathID.remove_id` is not a no-op on an absent entry.
For a top-level identifier with no cache entry the unguarded
`self._cache.pop(_id)` raises `KeyError`; removal succeeds (dropping
the entry and marking the cache dirty) exactly when the identifier is
cached; an identifier containing a `/` separator returns without
touching the cache. -/
theorem removeId_absent_raises (st : CPState) (u : String) (i : List String) :
    (cacheLookup st.cache u = none → cpidRemoveId st [u] = none) ∧
    (∀ p, cacheLookup st.cache u = some p →
      cpidRemoveId st [u] =
        some ⟨st.cache.filter (fun e => ¬ e.1 = u), true⟩) ∧
    (2 ≤ i.length → cpidRemoveId st i = some st) := by
  refine ⟨fun h => ?_, fun p h => ?_, fun h => ?_⟩
  · simp [cpidRemoveId, h]
  · simp [cpidRemoveId, h]
  · match i with
    | a :: b :: rest => simp [cpidRemoveId]
    | [] => simp at h
    | [a] => simp at h

/-- Witness for `removeId_absent_raises` at a one-entry cache. -/
theorem removeId_absent_raises_witness :
    cpidRemoveId ⟨[("a", [".be", "a"])], false⟩ ["b"] = none ∧
    cpidRemoveId ⟨[("a", [".be", "a"])], false⟩ ["a"] = some ⟨[], true⟩ ∧
    cpidRemoveId ⟨[("a", [".be", "a"])], false⟩ ["b", "c"] =
      some ⟨[("a", [".be", "a"])], false⟩ := by
  refine ⟨(removeId_absent_raises _ "b" ["b", "c"]).1 (by decide), ?_, ?_⟩
  · have := (removeId_absent_raises ⟨[("a", [".be", "a"])], false⟩ "a"
      ["b", "c"]).2.1 [".be", "a"] (by decide)
    simpa using this
  · exact (removeId_absent_raises ⟨[("a", [".be", "a"])], false⟩ "a"
      ["b", "c"]).2.2 (by decide)

/-- C10: through `VCS._get` an empty stored value is indistinguishable
from a missing identifier: a resolved file that exists with zero bytes
raises `InvalidID` without a default and returns the default with one,
exactly as when the resolved file does not exist. -/
theorem get_empty_eq_missing (st : CPState) (fs fsMissing : FS) (i p : List String)
    (hpath : cpidPath st i = some p)
    (hfile : fsLookup fs p = some (.file []))
    (hmiss : fsLookup fsMissing p = none) :
    vcsGet st fs i none = .error () ∧
    (∀ d, vcsGet st fs i (some d) = .ok d) ∧
    vcsGet st fs i none = vcsGet st fsMissing i none ∧
    (∀ d, vcsGet st fs i (some d) = vcsGet st fsMissing i (some d)) := by
  refine ⟨?_, fun d => ?_, ?_, fun d => ?_⟩ <;>
    simp [vcsGet, hpath, vcsGetFileContents, hfile, hmiss]

/-- Witness for `get_empty_eq_missing`: identifier `x/values` resolved
to an existing empty file versus an absent file. -/
theorem get_empty_eq_missing_witness :
    cpidPath ⟨[("x", [".be", "x"])], false⟩ ["x", "values"] =
      some [".be", "x", "values"] ∧
    fsLookup [([".be", "x", "values"], .file [])] [".be", "x", "values"] =
      some (.file []) ∧
    vcsGet ⟨[("x", [".be", "x"])], false⟩ [([".be", "x", "values"], .file [])]
      ["x", "values"] none = .error () := by
  refine ⟨by decide, by decide, ?_⟩
  exact (get_empty_eq_missing ⟨[("x", [".be", "x"])], false⟩
    [([".be", "x", "values"], FSNode.file [])] [] ["x", "values"]
    [".be", "x", "values"] (by decide) (by decide) (by decide)).1

/-- C2: change-set completeness.  For a patch set holding one
non-renamed file whose single hunk has source start and length both 0
(an added file) and one non-renamed file whose single hunk has nonzero
source and target lengths (a modified file), `changed_files` yields
exactly the added singleton, the modified singleton, and no removals. -/
theorem changedFiles_add_modify (fa fb : PatchedFile)
    (hra : fa.isRenamedFile = false) (hrb : fb.isRenamedFile = false)
    (ha : ∃ h, fa.hunks = [h] ∧ h.sourceStart = 0 ∧ h.sourceLength = 0)
    (hb : ∃ h, fb.hunks = [h] ∧ h.sourceLength ≠ 0 ∧ h.targetLength ≠ 0) :
    changedFiles [fa, fb] = ([fa.path], [fb.path], []) := by
  obtain ⟨h1, hh1, hs1, hl1⟩ := ha
  obtain ⟨h2, hh2, hs2, hl2⟩ := hb
  simp [changedFiles, changedFilesAux, hra, hrb, PatchedFile.isAddedFile,
    PatchedFile.isRemovedFile, PatchedFile.isModifiedFile, hh1, hh2, hs1, hl1,
    hs2, hl2]

/-- Witness for `changedFiles_add_modify`: `git`-style names, file `a`
added and file `b` modified. -/
theorem changedFiles_add_modify_witness :
    changedFiles [⟨"/dev/null", "b/a", none, none, false, [⟨0, 0, 1, 1, "", []⟩]⟩,
        ⟨"a/b", "b/b", none, none, false, [⟨1, 2, 1, 2, "", []⟩]⟩] =
      (["a"], ["b"], []) := by
  have := changedFiles_add_modify
    ⟨"/dev/null", "b/a", none, none, false, [⟨0, 0, 1, 1, "", []⟩]⟩
    ⟨"a/b", "b/b", none, none, false, [⟨1, 2, 1, 2, "", []⟩]⟩
    rfl rfl ⟨⟨0, 0, 1, 1, "", []⟩, rfl, rfl, rfl⟩
    ⟨⟨1, 2, 1, 2, "", []⟩, rfl, by decide, by decide⟩
  exact this.trans (by decide)

/-- C6 counterexample: the claimed mutual exclusivity of the
added/removed/modified classifications fails for a non-renamed file
whose single hunk has all four header numbers zero — it is classified
both as added and as removed. -/
theorem classification_not_exclusive :
    (PatchedFile.isAddedFile ⟨"a/f", "b/f", none, none, false,
        [⟨0, 0, 0, 0, "", []⟩]⟩) = true ∧
    (PatchedFile.isRemovedFile ⟨"a/f", "b/f", none, none, false,
        [⟨0, 0, 0, 0, "", []⟩]⟩) = true := by
  decide

/-- C6 amended: for a non-renamed file, `is_added_file` holds exactly
for a single hunk with source start and length zero, `is_removed_file`
exactly for a single hunk with target start and length zero, and
`is_modified_file` exactly when neither holds; added and removed
overlap only in the degenerate case of a single all-zero hunk. -/
theorem classification_spec (f : PatchedFile) (hr : f.isRenamedFile = false) :
    (f.isAddedFile = true ↔
      ∃ h, f.hunks = [h] ∧ h.sourceStart = 0 ∧ h.sourceLength = 0) ∧
    (f.isRemovedFile = true ↔
      ∃ h, f.hunks = [h] ∧ h.targetStart = 0 ∧ h.targetLength = 0) ∧
    (f.isModifiedFile = true ↔
      (f.isAddedFile = false ∧ f.isRemovedFile = false)) ∧
    (f.isAddedFile = true → f.isRemovedFile = true →
      ∃ h, f.hunks = [h] ∧ h.sourceStart = 0 ∧ h.sourceLength = 0 ∧
        h.targetStart = 0 ∧ h.targetLength = 0) := by
  refine ⟨?_, ?_, ?_, ?_⟩
  · constructor
    · intro h
      simp [PatchedFile.isAddedFile, hr] at h
      match hf : f.hunks, h with
      | [hk], h => exact ⟨hk, rfl, by simpa [hf] using h⟩
    · rintro ⟨hk, hh, h1, h2⟩
      simp [PatchedFile.isAddedFile, hr, hh, h1, h2]
  · constructor
    · intro h
      simp [PatchedFile.isRemovedFile, hr] at h
      match hf : f.hunks, h with
      | [hk], h => exact ⟨hk, rfl, by simpa [hf] using h⟩
    · rintro ⟨hk, hh, h1, h2⟩
      simp [PatchedFile.isRemovedFile, hr, hh, h1, h2]
  · cases ha : f.isAddedFile <;> cases hrm : f.isRemovedFile <;>
      simp [PatchedFile.isModifiedFile, ha, hrm]
  · intro ha hb
    simp [PatchedFile.isAddedFile, hr] at ha
    simp [PatchedFile.isRemovedFile, hr] at hb
    match hf : f.hunks, ha, hb with
    | [hk], ha, hb =>
      refine ⟨hk, rfl, ?_⟩
      simp [hf] at ha hb
      exact ⟨ha.1, ha.2, hb.1, hb.2⟩

/-- Witness for `classification_spec` at an ordinary modified file. -/
theorem classification_spec_witness :
    (PatchedFile.isModifiedFile ⟨"a/b", "b/b", none, none, false,
      [⟨1, 2, 1, 2, "", []⟩]⟩) = true := by
  have := (classification_spec
    ⟨"a/b", "b/b", none, none, false, [⟨1, 2, 1, 2, "", []⟩]⟩ rfl).2.2.1
  exact this.2 (by decide)

/-- C8: render/re-parse idempotence fails — and the renderer, not the
claim, is at fault.  The one-hunk diff below parses; `Hunk.__str__`
joins the newline-terminated body lines with a further newline, so the
rendered text carries a blank line inside the hunk body, and re-parsing
it raises `UnidiffParseError` instead of reproducing the parse. -/
theorem render_reparse_raises :
    patchSetFromString "--- a/f\n+++ b/f\n@@ -1,1 +1,1 @@\n-x\n+y\n" =
      .ok [⟨"a/f", "b/f", none, none, false, [⟨1, 1, 1, 1, "",
        [⟨"x\n", .removed, some 1, none, some 4⟩,
         ⟨"y\n", .added, none, some 1, some 5⟩]⟩]⟩] ∧
    renderPatchSet [⟨"a/f", "b/f", none, none, false, [⟨1, 1, 1, 1, "",
        [⟨"x\n", .removed, some 1, none, some 4⟩,
         ⟨"y\n", .added, none, some 1, some 5⟩]⟩]⟩] =
      "--- a/f\n+++ b/f\n@@ -1,1 +1,1 @@ \n-x\n\n+y\n" ∧
    patchSetFromString "--- a/f\n+++ b/f\n@@ -1,1 +1,1 @@ \n-x\n\n+y\n" =
      .error (.hunkLineExpected "\n") := by
  exact ⟨by decide, by decide, by decide⟩

/-- `pyIndex` at a negative in-range position. -/
theorem pyIndex_neg (l : List String) (k : Nat) (h1 : 1 ≤ k) (h2 : k ≤ l.length) :
    pyIndex l (-(k : Int)) = l.get? (l.length - k) := by
  unfold pyIndex
  rw [if_neg (by omega), if_pos (by omega)]
  congr 1
  omega

/-- `pyIndex` at `-1` returns the last element. -/
theorem pyIndex_neg_one (l : List String) (h : l ≠ []) : pyIndex l (-1) = l.getLast? := by
  have h1 : 1 ≤ l.length := by
    cases l with
    | nil => exact absurd rfl h
    | cons a as => simp
  have := pyIndex_neg l 1 le_rfl h1
  simpa [List.getLast?_eq_getElem?, List.get?_eq_getElem?] using this

/-- C4: the empty-commit gate of the darcs, hg and monotone adapters.
When the tool reports that nothing changed, committing with
`allow_empty=False` raises `EmptyCommit`; with `allow_empty=True` the
commit returns the identifier of the most recent already-existing
revision (darcs and hg look up revision index `-1`, monotone returns
the workspace base revision) — no new revision is created. -/
theorem empty_commit_gate (outD outH errM : String) (revs : List String) (cur : String)
    (hD : anyInString ["No changes!"] outD = true)
    (hH : anyInString ["nothing changed"] outH = true)
    (hM : anyInString ["no changes to commit"] errM = true)
    (hrev : revs ≠ []) :
    darcsCommit outD false revs = .error .emptyCommit ∧
    darcsCommit outD true revs = .ok (some (revs.getLast hrev)) ∧
    hgCommit outH false revs = .error .emptyCommit ∧
    hgCommit outH true revs = .ok (some (revs.getLast hrev)) ∧
    monotoneCommit 1 errM false cur = .error .emptyCommit ∧
    monotoneCommit 1 errM true cur = .ok cur := by
  have hlast : pyIndex revs (-1) = some (revs.getLast hrev) := by
    rw [pyIndex_neg_one revs hrev, List.getLast?_eq_getLast_of_ne_nil hrev]
  refine ⟨?_, ?_, ?_, ?_, ?_, ?_⟩
  · simp [darcsCommit, hD]
  · simp [darcsCommit, hD, darcsRevisionId, hlast]
  · simp [hgCommit, hH]
  · simp [hgCommit, hgRevisionId, hlast]
  · simp [monotoneCommit, hM]
  · simp [monotoneCommit, hM]

/-- Witness for `empty_commit_gate` on a two-revision history. -/
theorem empty_commit_gate_witness :
    darcsCommit "No changes!" false ["r1", "r2"] = .error .emptyCommit ∧
    darcsCommit "No changes!" true ["r1", "r2"] = .ok (some "r2") ∧
    hgCommit "nothing changed" true ["r1", "r2"] = .ok (some "r2") ∧
    monotoneCommit 1 "mtn: no changes to commit" true "cur" = .ok "cur" := by
  have h := empty_commit_gate "No changes!" "nothing changed"
    "mtn: no changes to commit" ["r1", "r2"] "cur"
    (by decide) (by decide) (by decide) (by decide)
  exact ⟨h.1, h.2.1, h.2.2.2.1, h.2.2.2.2.2⟩

/-- C7 counterexample: with darcs revision logic over the two-revision
history `[r1, r2]`, index `0` raises `InvalidRevision` (the claim says
it names the revision one before the current working state) and index
`-1` resolves to `r2`, the most recent revision — not the revision two
before the working state. -/
theorem revision_index_cex :
    revisionId (fun i => darcsRevisionId i ["r1", "r2"]) (some (.int 0)) =
      .error .invalidRevision ∧
    revisionId (fun i => darcsRevisionId i ["r1", "r2"]) (some (.int (-1))) =
      .ok (some "r2") := by
  exact ⟨by decide, by decide⟩

/-- C7 amended: `revision_id` maps index 1 to the very first revision
and a negative index `-k` to the revision `k` before the current
working state (`-1` being the most recent); index 0, a non-integer
index, and an out-of-range index raise `InvalidRevision` with the
darcs/monotone index logic (the hg adapter instead sends index 0 to
the first revision); `None` passes through. -/
theorem revision_index_spec (revs : List String) (hne : revs ≠ []) :
    (revisionId (fun i => darcsRevisionId i revs) (some (.int 1)) =
      .ok (revs.get? 0)) ∧
    (∀ k : Nat, 1 ≤ k → k ≤ revs.length →
      revisionId (fun i => darcsRevisionId i revs) (some (.int (-(k : Int)))) =
        .ok (revs.get? (revs.length - k))) ∧
    revisionId (fun i => darcsRevisionId i revs) (some (.int 0)) =
      .error .invalidRevision ∧
    revisionId (fun i => darcsRevisionId i revs) (some .nonInt) =
      .error .invalidRevision ∧
    (∀ n : Nat, revs.length < n →
      revisionId (fun i => darcsRevisionId i revs) (some (.int (n : Int))) =
        .error .invalidRevision) ∧
    revisionId (fun i => darcsRevisionId i revs) none = .ok none ∧
    hgRevisionId 0 revs = revs.get? 0 := by
  have hget0 : ∃ a, revs.get? 0 = some a := by
    cases revs with
    | nil => exact absurd rfl hne
    | cons a as => exact ⟨a, rfl⟩
  obtain ⟨a0, ha0⟩ := hget0
  refine ⟨?_, ?_, ?_, ?_, ?_, ?_, ?_⟩
  · have h1 : darcsRevisionId 1 revs = revs.get? 0 := by
      simp [darcsRevisionId, pyIndex]
    simp only [revisionId, h1, ha0]
  · intro k hk1 hk2
    have hlt : revs.length - k < revs.length := by omega
    have h1 : darcsRevisionId (-(k : Int)) revs = revs.get? (revs.length - k) := by
      rw [darcsRevisionId, if_neg (by omega), if_pos (by omega)]
      exact pyIndex_neg revs k hk1 hk2
    simp only [revisionId, h1, List.get?_eq_get hlt]
  · simp [revisionId, darcsRevisionId]
  · simp [revisionId]
  · intro n hn
    have h1 : darcsRevisionId (n : Int) revs = none := by
      rw [darcsRevisionId, if_pos (by omega)]
      unfold pyIndex
      rw [if_pos (by omega)]
      exact List.get?_eq_none.2 (by omega)
    simp [revisionId, h1]
  · simp [revisionId]
  · simp [hgRevisionId, pyIndex]

/-- The spacer-stripping loop only ever strips leading segments: its
result keeps the last segment of the path (or is the fallback `cur`),
so it is nonempty and ends where the path ends. -/
theorem idLoop_getLast : ∀ (spacers path cur : List String) (L : String),
    path.getLast? = some L → cur.getLast? = some L →
    (idLoop spacers path cur).getLast? = some L
  | [], _, _, _, _, hcur => hcur
  | _ :: rest, path, cur, L, hpath, hcur => by
    match path with
    | [] => exact hcur
    | [p0] => exact hcur
    | p0 :: p1 :: ps =>
      simp only [idLoop]
      split_ifs with h0
      · match ps with
        | [] =>
          simpa using hpath
        | q :: qs =>
          have hps : (q :: qs).getLast? = some L := by
            simpa [List.getLast?_cons_cons] using hpath
          have hcur2 : (p1 :: q :: qs).getLast? = some L := by
            simpa [List.getLast?_cons_cons] using hps
          exact idLoop_getLast rest (q :: qs) (p1 :: q :: qs) L hps hcur2
      · exact hcur

theorem idLoop_ne_nil : ∀ (spacers path cur : List String),
    cur ≠ [] → idLoop spacers path cur ≠ []
  | [], _, _, hcur => hcur
  | _ :: rest, path, cur, hcur => by
    match path with
    | [] => exact hcur
    | [p0] => exact hcur
    | p0 :: p1 :: ps =>
      simp only [idLoop]
      split_ifs with h0
      · match ps with
        | [] => simp
        | q :: qs => exact idLoop_ne_nil rest (q :: qs) (p1 :: q :: qs) (by simp)
      · exact hcur

/-- When the head of the remaining path matches no spacer the loop
stops with the fallback value (also when a single segment remains). -/
theorem idLoop_no_spacer : ∀ (spacers : List String) (e : String)
    (es cur : List String), (∀ t ∈ spacers, e ≠ t) →
    idLoop spacers (e :: es) cur = cur
  | [], _, _, _, _ => rfl
  | sp :: rest, e, es, cur, he => by
    match es with
    | [] => rfl
    | f :: fs =>
      simp only [idLoop]
      rw [if_neg (he sp (by simp))]

/-- The collision test never fires on `u :: extra` when no segment of
`extra` is a spacer name. -/
theorem collidingSpacer_extra (u e : String) (es : List String)
    (hx : ∀ s ∈ e :: es, s ∉ spacerDirs) :
    collidingSpacer (u :: e :: es) = none := by
  rw [collidingSpacer, if_pos (by simp)]
  rw [List.find?_eq_none]
  intro t ht
  have hne : (e :: es) ≠ ([] : List String) := by simp
  have hlast := List.getLast?_eq_getLast_of_ne_nil hne
  have hmem : (e :: es).getLast hne ∈ e :: es := List.getLast_mem hne
  simp only [List.getLast?_cons_cons, decide_eq_true_eq]
  rw [hlast]
  intro hsome
  have : (e :: es).getLast hne = t := by simpa using hsome
  exact hx _ hmem (this ▸ ht)

/-- Assembling `CachedPathID.id` from the loop value and the collision
test. -/
theorem cpidId_of_parts (p : List String) (hstart : startsWithSpacer ".be" p = true)
    (u : String) (extra : List String)
    (hi : idLoop spacerDirs p [] = u :: extra)
    (hcoll : collidingSpacer (u :: extra) = none) :
    cpidId p = .ok (u :: extra) := by
  rw [cpidId, if_pos hstart, hi]
  simp [hcoll]

/-- C1 counterexample: `add_id` happily derives a path for the deeper
identifier `xyz/bugs` (its final segment is a spacer name), but
converting that path back raises `SpacerCollision` instead of
returning the identifier, so `id(path(I)) == I` fails. -/
theorem cpid_roundtrip_cex :
    cpidAddId ⟨[("xyz", [".be", "xyz"])], false⟩ ["xyz", "bugs"] (some "xyz") =
      some (⟨[("xyz", [".be", "xyz"])], false⟩, [".be", "xyz", "bugs"]) ∧
    cpidPath ⟨[("xyz", [".be", "xyz"])], false⟩ ["xyz", "bugs"] =
      some [".be", "xyz", "bugs"] ∧
    cpidId [".be", "xyz", "bugs"] = .error (.spacerCollision "bugs") := by
  decide

/-- C1 amended: the identifier/path round-trip `id(path(I)) == I`
holds for every identifier resolvable against a well-formed cache (as
`add_id` builds it) provided no segment after the top-level one is a
spacer-directory name; a spacer segment in the tail either collides or
is re-interpreted as spacer structure. -/
theorem cpid_roundtrip (st : CPState) (hwf : WfCache st) (u : String)
    (extra : List String) (hextra : ∀ s ∈ extra, s ∉ spacerDirs)
    (p : List String) (hp : cpidPath st (u :: extra) = some p) :
    cpidId p = .ok (u :: extra) := by
  rw [cpidPath] at hp
  cases hq : cacheLookup st.cache u with
  | none => rw [hq] at hp; cases hp
  | some q =>
    rw [hq] at hp
    have hpq : q ++ extra = p := by injection hp
    subst hpq
    have hcoll : ∀ u0 : String, collidingSpacer (u0 :: extra) = none := by
      intro u0
      cases extra with
      | nil => simp [collidingSpacer]
      | cons e es => exact collidingSpacer_extra u0 e es hextra
    have hed : ∀ e ∈ extra, ∀ t ∈ spacerDirs, e ≠ t := by
      intro e he t ht heq
      exact hextra e he (heq ▸ ht)
    rcases hwf u q hq with h1 | ⟨u1, h2⟩ | ⟨u1, u2, h3⟩
    · subst h1
      cases extra with
      | nil =>
        refine cpidId_of_parts _ (by simp [startsWithSpacer]) u [] ?_ (hcoll u)
        simp [spacerDirs, idLoop]
      | cons e es =>
        refine cpidId_of_parts _ (by simp [startsWithSpacer]) u (e :: es) ?_ (hcoll u)
        show idLoop (".be" :: ["bugs", "comments"]) (".be" :: u :: e :: es) [] =
          u :: e :: es
        simp only [idLoop, if_pos rfl]
        exact idLoop_no_spacer ["bugs", "comments"] e es (u :: e :: es)
          (fun t ht => hed e (by simp) t (by simp [spacerDirs] at ht ⊢; tauto))
    · subst h2
      cases extra with
      | nil =>
        refine cpidId_of_parts _ (by simp [startsWithSpacer]) u [] ?_ (hcoll u)
        simp [spacerDirs, idLoop]
      | cons e es =>
        refine cpidId_of_parts _ (by simp [startsWithSpacer]) u (e :: es) ?_ (hcoll u)
        show idLoop (".be" :: ["bugs", "comments"])
          (".be" :: u1 :: "bugs" :: u :: e :: es) [] = u :: e :: es
        simp only [idLoop, if_pos rfl]
        exact idLoop_no_spacer ["comments"] e es (u :: e :: es)
          (fun t ht => hed e (by simp) t (by simp [spacerDirs] at ht ⊢; tauto))
    · subst h3
      cases extra with
      | nil =>
        refine cpidId_of_parts _ (by simp [startsWithSpacer]) u [] ?_ (hcoll u)
        simp [spacerDirs, idLoop]
      | cons e es =>
        refine cpidId_of_parts _ (by simp [startsWithSpacer]) u (e :: es) ?_ (hcoll u)
        show idLoop (".be" :: ["bugs", "comments"])
          (".be" :: u1 :: "bugs" :: u2 :: "comments" :: u :: e :: es) [] =
          u :: e :: es
        simp [idLoop]

/-- Witness for `cpid_roundtrip`: the comment identifier `123/values`
below a cached bug path round-trips. -/
theorem cpid_roundtrip_witness :
    cpidId [".be", "abc", "bugs", "123", "values"] = .ok ["123", "values"] := by
  refine cpid_roundtrip ⟨[("123", [".be", "abc", "bugs", "123"])], false⟩ ?_
    "123" ["values"] (by decide) [".be", "abc", "bugs", "123", "values"] (by decide)
  intro u p h
  rw [cacheLookup] at h
  cases hfind : List.find? (fun e => e.1 = u)
      [("123", ([".be", "abc", "bugs", "123"] : List String))] with
  | none => rw [hfind] at h; cases h
  | some f =>
    rw [hfind] at h
    have hmem := List.mem_of_find?_eq_some hfind
    have hpred := List.find?_some hfind
    simp only [List.mem_singleton] at hmem
    subst hmem
    simp only [decide_eq_true_eq] at hpred
    cases h
    rw [← hpred]
    exact Or.inr (Or.inl ⟨"abc", rfl⟩)

/-- Pushing a well-formed binding onto a well-formed cache keeps it
well-formed. -/
theorem wfCache_cons (st : CPState) (hwf : WfCache st) (uuid : String)
    (path : List String) (hw : WfEntry uuid path) (b : Bool) :
    WfCache ⟨(uuid, path) :: st.cache, b⟩ := by
  intro v pv hv
  rw [cacheLookup] at hv
  by_cases hvu : uuid = v
  · subst hvu
    rw [List.find?_cons_of_pos _ (by simp)] at hv
    cases hv
    exact hw
  · rw [List.find?_cons_of_neg _ (by simpa using hvu)] at hv
    exact hwf v pv (by rw [cacheLookup]; exact hv)

/-- `add_id` keeps every cache path well-formed: a fresh top-level
identifier is recorded either directly under the root spacer or below
a well-formed parent path extended by the next spacer. -/
theorem cpidAddId_preserves_wf (st : CPState) (hwf : WfCache st)
    (i : List String) (parent : Option String) (st2 : CPState) (p : List String)
    (h : cpidAddId st i parent = some (st2, p)) : WfCache st2 := by
  match i with
  | [] => simp [cpidAddId] at h
  | uuid :: e :: es =>
    cases parent with
    | none => simp [cpidAddId] at h
    | some par =>
      by_cases hpr : strPrefixOf par (String.intercalate "/" (uuid :: e :: es)) = true
      · cases hpp : cpidPath st (uuid :: e :: es) with
        | none => simp [cpidAddId, hpr, hpp] at h
        | some pth =>
          simp [cpidAddId, hpr, hpp] at h
          rw [← h.1]
          exact hwf
      · simp [cpidAddId, hpr] at h
  | [uuid] =>
    cases hq : cacheLookup st.cache uuid with
    | some q =>
      simp [cpidAddId, hq] at h
      rw [← h.1]
      exact hwf
    | none =>
      cases parent with
      | none =>
        simp [cpidAddId, hq] at h
        rw [← h.1]
        exact wfCache_cons st hwf uuid [".be", uuid] (Or.inl rfl) true
      | some par =>
        cases hpq : cacheLookup st.cache par with
        | none => simp [cpidAddId, hq, hpq] at h
        | some parentPath =>
          rcases hwf par parentPath hpq with hw1 | ⟨w1, hw2⟩ | ⟨w1, w2, hw3⟩
          · subst hw1
            simp [cpidAddId, hq, hpq, spacerDirs, List.indexOf?, List.findIdx?] at h
            rw [← h.1]
            exact wfCache_cons st hwf uuid _ (Or.inr (Or.inl ⟨par, rfl⟩)) true
          · subst hw2
            simp [cpidAddId, hq, hpq, spacerDirs, List.indexOf?, List.findIdx?] at h
            rw [← h.1]
            exact wfCache_cons st hwf uuid _ (Or.inr (Or.inr ⟨w1, par, rfl⟩)) true
          · subst hw3
            simp [cpidAddId, hq, hpq, spacerDirs, List.indexOf?, List.findIdx?] at h

/-- C5 counterexample: the path `.be/bugs` ends in the spacer name
`bugs`, yet `CachedPathID.id` returns the identifier `bugs` instead of
raising `SpacerCollision` (the remainder after stripping the first
spacer is the single segment `bugs`, and the collision test only fires
on identifiers of at least two segments). -/
theorem cpidId_bare_spacer_ok :
    "bugs" ∈ spacerDirs ∧ cpidId [".be", "bugs"] = .ok ["bugs"] := by decide

/-- C5 amended: for a path inside the root spacer directory whose last
component is a spacer name, `CachedPathID.id` raises `SpacerCollision`
whenever the computed identifier keeps at least two segments; when the
spacer stripping leaves the single offending segment, that segment is
returned as the identifier instead. -/
theorem cpidId_spacer_last (path : List String) (s : String)
    (hs : s ∈ spacerDirs) (hlast : path.getLast? = some s)
    (hstart : startsWithSpacer ".be" path = true) :
    (∃ sp, cpidId path = .error (.spacerCollision sp)) ∨
      cpidId path = .ok [s] := by
  match path, hstart with
  | p0 :: p1 :: ps, hstart =>
    have hp0 : p0 = ".be" := by
      simpa [startsWithSpacer] using hstart
    subst hp0
    have hloop : (idLoop spacerDirs (".be" :: p1 :: ps) []).getLast? = some s := by
      show (idLoop (".be" :: ["bugs", "comments"]) (".be" :: p1 :: ps) []).getLast? =
        some s
      simp only [idLoop, if_pos rfl]
      match ps, hlast with
      | [], hlast => simpa using hlast
      | q :: qs, hlast =>
        have hps : (q :: qs).getLast? = some s := by
          simpa [List.getLast?_cons_cons] using hlast
        exact idLoop_getLast ["bugs", "comments"] (q :: qs) (p1 :: q :: qs) s hps
          (by simpa [List.getLast?_cons_cons] using hps)
    rw [cpidId, if_pos hstart]
    rcases hi : idLoop spacerDirs (".be" :: p1 :: ps) [] with _ | ⟨x, xs⟩
    · rw [hi] at hloop
      simp at hloop
    · rw [hi] at hloop
      match xs with
      | [] =>
        right
        have hx : x = s := by simpa using hloop
        subst hx
        simp [collidingSpacer]
      | y :: ys =>
        left
        have hfind : (spacerDirs.find? (fun t => (x :: y :: ys).getLast? = some t)).isSome := by
          rw [List.find?_isSome]
          exact ⟨s, hs, by simpa using hloop⟩
        obtain ⟨sp, hsp⟩ := Option.isSome_iff_exists.1 hfind
        refine ⟨sp, ?_⟩
        have hcoll : collidingSpacer (x :: y :: ys) = some sp := by
          rw [collidingSpacer, if_pos (by simp)]
          exact hsp
        simp [hcoll]

/-- Witness for `cpidId_spacer_last`: the path `.be/x/bugs` collides. -/
theorem cpidId_spacer_last_witness :
    (∃ sp, cpidId [".be", "x", "bugs"] = .error (.spacerCollision sp)) ∨
      cpidId [".be", "x", "bugs"] = .ok ["bugs"] :=
  cpidId_spacer_last [".be", "x", "bugs"] "bugs" (by decide) (by decide) (by decide)

theorem cmpInt_antisymm (x y : Int) : cmpInt x y = -cmpInt y x := by
  unfold cmpInt; split_ifs <;> omega

theorem cmpInt_eq_zero (x y : Int) (h : cmpInt x y = 0) : x = y := by
  unfold cmpInt at h; split_ifs at h <;> omega

theorem cmpInt_self (x : Int) : cmpInt x x = 0 := by
  unfold cmpInt; split_ifs <;> omega

theorem cmpInt_trans_one (x y z : Int) (h1 : cmpInt x y = 1) (h2 : cmpInt y z = 1) :
    cmpInt x z = 1 := by
  unfold cmpInt at h1 h2 ⊢; split_ifs at h1 h2 ⊢ <;> omega

theorem cmpChars_antisymm : ∀ (a b : List Char), cmpChars a b = -cmpChars b a
  | [], [] => by simp [cmpChars]
  | [], _ :: _ => by simp [cmpChars]
  | _ :: _, [] => by simp [cmpChars]
  | a :: as, b :: bs => by
    simp only [cmpChars]
    split_ifs <;> first
      | omega
      | (rw [cmpChars_antisymm as bs])

theorem cmpChars_eq_zero : ∀ (a b : List Char), cmpChars a b = 0 → a = b
  | [], [], _ => rfl
  | [], _ :: _, h => by simp [cmpChars] at h
  | _ :: _, [], h => by simp [cmpChars] at h
  | a :: as, b :: bs, h => by
    simp only [cmpChars] at h
    split_ifs at h with h1 h2
    · omega
    · have hnat : a.toNat = b.toNat := by omega
      have hab : a = b := by
        apply Char.ext
        apply UInt32.ext
        simpa [Char.toNat, UInt32.toNat] using hnat
      rw [hab, cmpChars_eq_zero as bs h]

theorem cmpChars_self : ∀ (a : List Char), cmpChars a a = 0
  | [] => rfl
  | a :: as => by simp [cmpChars, cmpChars_self as]

theorem cmpChars_trans_one : ∀ (a b c : List Char),
    cmpChars a b = 1 → cmpChars b c = 1 → cmpChars a c = 1
  | [], [], _, h1, _ => by simp [cmpChars] at h1
  | [], _ :: _, _, h1, _ => by simp [cmpChars] at h1
  | _ :: _, [], [], _, h2 => by simp [cmpChars] at h2
  | _ :: _, [], _ :: _, _, h2 => by simp [cmpChars] at h2
  | _ :: _, _ :: _, [], _, _ => by simp [cmpChars]
  | a :: as, b :: bs, c :: cs, h1, h2 => by
    simp only [cmpChars] at h1 h2 ⊢
    split_ifs at h1 h2 ⊢ <;>
      first
        | rfl
        | omega
        | exact cmpChars_trans_one as bs cs h1 h2

theorem cmpStr_antisymm (x y : String) : cmpStr x y = -cmpStr y x :=
  cmpChars_antisymm _ _

theorem cmpStr_eq_zero (x y : String) (h : cmpStr x y = 0) : x = y := by
  have := cmpChars_eq_zero _ _ h
  cases x; cases y; simp_all [String.toList]

theorem cmpStr_self (x : String) : cmpStr x x = 0 := cmpChars_self _

theorem cmpStr_trans_one (x y z : String) (h1 : cmpStr x y = 1) (h2 : cmpStr y z = 1) :
    cmpStr x z = 1 :=
  cmpChars_trans_one _ _ _ h1 h2

theorem cmpVComp_antisymm : ∀ (a b : VComp), cmpVComp a b = -cmpVComp b a
  | .num _, .num _ => cmpInt_antisymm _ _
  | .tag _, .tag _ => cmpStr_antisymm _ _
  | .num _, .tag _ => rfl
  | .tag _, .num _ => rfl

theorem cmpVComp_eq_zero : ∀ (a b : VComp), cmpVComp a b = 0 → a = b
  | .num _, .num _, h => by rw [cmpInt_eq_zero _ _ h]
  | .tag _, .tag _, h => by rw [cmpStr_eq_zero _ _ h]
  | .num _, .tag _, h => by simp [cmpVComp] at h
  | .tag _, .num _, h => by simp [cmpVComp] at h

theorem cmpVComp_self : ∀ (a : VComp), cmpVComp a a = 0
  | .num _ => cmpInt_self _
  | .tag _ => cmpStr_self _

theorem cmpVComp_trans_one : ∀ (a b c : VComp),
    cmpVComp a b = 1 → cmpVComp b c = 1 → cmpVComp a c = 1
  | .num _, .num _, .num _, h1, h2 => cmpInt_trans_one _ _ _ h1 h2
  | .tag _, .tag _, .tag _, h1, h2 => cmpStr_trans_one _ _ _ h1 h2
  | .num _, .num _, .tag _, _, _ => rfl
  | .num _, .tag _, .num _, _, h2 => by simp [cmpVComp] at h2
  | .num _, .tag _, .tag _, _, _ => rfl
  | .tag _, .num _, _, h1, _ => by simp [cmpVComp] at h1
  | .tag _, .tag _, .num _, _, h2 => by simp [cmpVComp] at h2

theorem versionCmp_antisymm : ∀ (a b : List VComp), versionCmp a b = -versionCmp b a
  | [], [] => by simp [versionCmp]
  | [], b :: _ => by cases b <;> simp [versionCmp]
  | a :: _, [] => by cases a <;> simp [versionCmp]
  | a :: as, b :: bs => by
    simp only [versionCmp]
    by_cases h : cmpVComp a b = 0
    · have hba : cmpVComp b a = 0 := by
        rw [cmpVComp_antisymm] at h; omega
      rw [if_pos h, if_pos hba]
      exact versionCmp_antisymm as bs
    · have hba : ¬ cmpVComp b a = 0 := by
        rw [cmpVComp_antisymm] at h; omega
      rw [if_neg h, if_neg hba, cmpVComp_antisymm a b]

theorem versionCmp_trans_one : ∀ (a b c : List VComp),
    versionCmp a b = 1 → versionCmp b c = 1 → versionCmp a c = 1
  | [], [], _, h1, _ => by simp [versionCmp] at h1
  | [], b :: bs, [], h1, h2 => by cases b <;> simp [versionCmp] at h1 h2
  | [], b :: bs, c :: cs, h1, h2 => by
    cases b with
    | num n => simp [versionCmp] at h1
    | tag s =>
      cases c with
      | tag t => simp [versionCmp]
      | num m =>
        exfalso
        simp only [versionCmp] at h2
        split_ifs at h2 with h
        · have := cmpVComp_eq_zero _ _ h
          simp at this
        · simp [cmpVComp] at h2
  | a :: as, [], [], h1, _ => h1
  | a :: as, [], c :: cs, h1, h2 => by
    cases a with
    | tag s => simp [versionCmp] at h1
    | num n =>
      cases c with
      | num m => simp [versionCmp] at h2
      | tag t => simp [versionCmp, cmpVComp]
  | a :: as, b :: bs, [], h1, h2 => by
    cases b with
    | tag s => simp [versionCmp] at h2
    | num m =>
      cases a with
      | num n => simp [versionCmp]
      | tag s =>
        exfalso
        simp only [versionCmp] at h1
        split_ifs at h1 with h
        · have := cmpVComp_eq_zero _ _ h
          simp at this
        · simp [cmpVComp] at h1
  | a :: as, b :: bs, c :: cs, h1, h2 => by
    simp only [versionCmp] at h1 h2 ⊢
    by_cases hab : cmpVComp a b = 0
    · obtain rfl : a = b := cmpVComp_eq_zero _ _ hab
      rw [if_pos hab] at h1
      by_cases hac : cmpVComp a c = 0
      · rw [if_pos hac] at h2 ⊢
        exact versionCmp_trans_one as bs cs h1 h2
      · rw [if_neg hac] at h2 ⊢
        exact h2
    · rw [if_neg hab] at h1
      by_cases hbc : cmpVComp b c = 0
      · obtain rfl : b = c := cmpVComp_eq_zero _ _ hbc
        rw [if_neg hab]
        exact h1
      · rw [if_neg hbc] at h2
        have hac := cmpVComp_trans_one a b c h1 h2
        rw [if_neg (by omega : ¬ cmpVComp a c = 0)]
        exact hac

theorem versionCmp_append_num : ∀ (a : List VComp) (n : Int) (rest : List VComp),
    versionCmp a (a ++ VComp.num n :: rest) = -1
  | [], _, _ => by simp [versionCmp]
  | x :: xs, n, rest => by
    simpa only [List.cons_append, versionCmp, cmpVComp_self, if_pos] using
      versionCmp_append_num xs n rest

theorem versionCmp_append_tag : ∀ (a : List VComp) (s : String) (rest : List VComp),
    versionCmp a (a ++ VComp.tag s :: rest) = 1
  | [], _, _ => by simp [versionCmp]
  | x :: xs, s, rest => by
    simpa only [List.cons_append, versionCmp, cmpVComp_self, if_pos] using
      versionCmp_append_tag xs s rest

/-- C3 counterexample: on `2.3.1` versus `2.3.1.1` the shorter
sequence compares *less* than the longer all-numeric one (`-1`), not
greater as the claim's length rule states (matching the source
doctest `v.version_cmp(2,3,1,1) == -1`). -/
theorem versionCmp_shorter_cex :
    versionCmp [.num 2, .num 3, .num 1] [.num 2, .num 3, .num 1, .num 1] = -1 := by
  decide

/-- C3 amended: `version_cmp` is antisymmetric and transitive on parsed
version sequences (integers mixed with pre-release tag strings, any
lengths); comparison is element-wise, and a shorter sequence compares
*less* than a longer one unless the first extra element of the longer
sequence is a pre-release tag, in which case the longer, tagged
sequence sorts before the corresponding numeric release (the shorter
compares greater). -/
theorem versionCmp_order :
    (∀ a b, versionCmp a b = -versionCmp b a) ∧
    (∀ a b c, versionCmp a b = 1 → versionCmp b c = 1 → versionCmp a c = 1) ∧
    (∀ a n rest, versionCmp a (a ++ VComp.num n :: rest) = -1) ∧
    (∀ a s rest, versionCmp a (a ++ VComp.tag s :: rest) = 1) :=
  ⟨versionCmp_antisymm, versionCmp_trans_one, versionCmp_append_num,
   versionCmp_append_tag⟩

/-- Witness for `versionCmp_order`: antisymmetry at `2.0.0pre2` vs
`2.0.0`, transitivity across `3 > 2.3.1 > 2.0.0pre2`, and both length
rules against `2.0.0`. -/
theorem versionCmp_order_witness :
    versionCmp [.num 2, .num 0, .num 0, .tag "pre", .num 2] [.num 2, .num 0, .num 0] =
      -versionCmp [.num 2, .num 0, .num 0]
        [.num 2, .num 0, .num 0, .tag "pre", .num 2] ∧
    versionCmp [.num 3] [.num 2, .num 3, .num 1] = 1 ∧
    versionCmp [.num 2, .num 3, .num 1] [.num 2, .num 0, .num 0, .tag "pre", .num 2] = 1 ∧
    versionCmp [.num 3] [.num 2, .num 0, .num 0, .tag "pre", .num 2] = 1 ∧
    versionCmp [.num 2, .num 0, .num 0] [.num 2, .num 0, .num 0, .num 1] = -1 ∧
    versionCmp [.num 2, .num 0, .num 0]
      [.num 2, .num 0, .num 0, .tag "pre", .num 2] = 1 := by
  refine ⟨versionCmp_order.1 _ _, by decide, by decide, ?_, ?_, ?_⟩
  · exact versionCmp_order.2.1 [.num 3] [.num 2, .num 3, .num 1]
      [.num 2, .num 0, .num 0, .tag "pre", .num 2] (by decide) (by decide)
  · exact versionCmp_order.2.2.1 [.num 2, .num 0, .num 0] 1 []
  · exact versionCmp_order.2.2.2 [.num 2, .num 0, .num 0] "pre" [.num 2]

/-- Witness for `revision_index_spec` on the history `[r1, r2]`. -/
theorem revision_index_spec_witness :
    revisionId (fun i => darcsRevisionId i ["r1", "r2"]) (some (.int 1)) =
      .ok (some "r1") ∧
    revisionId (fun i => darcsRevisionId i ["r1", "r2"]) (some (.int (-2))) =
      .ok (some "r1") ∧
    hgRevisionId 0 ["r1", "r2"] = some "r1" := by
  have h := revision_index_spec ["r1", "r2"] (by decide)
  refine ⟨h.1, ?_, h.2.2.2.2.2.2⟩
  have := h.2.1 2 (by decide) (by decide)
  simpa using this

end BE
